import Mathlib

/-!
A verification development for the core of the `Epsilon` EPUB editor
(package `epsilon_editor`): the document model, content cache, loader
validation, search/replace engine, and the archive save pipeline.

The Python source is embedded shallowly:
* Python `bytes`/`str` values are modelled as Lean `String`
  (byte-for-byte for the ASCII data exercised here);
* `zipfile` archives are modelled as ordered lists of entries
  `{filename, content, compressType}` (0 = ZIP_STORED, 8 = ZIP_DEFLATED),
  with `zipfile`'s last-entry-wins name lookup;
* Python `dict`s (the content cache, `all_metadata`) are modelled as
  insertion-ordered association lists with overwrite-in-place update;
* `BeautifulSoup(content, "lxml")` documents are modelled as a tree of
  elements and text nodes; `find_all(string=True)` is the depth-first
  document-order listing of text nodes; `prettify` is modelled after
  bs4's pretty printer (one space of indentation per depth level, text
  nodes stripped, whitespace-only text nodes omitted);
* compiled `re` patterns are modelled on the path the editor compiles
  for non-regex queries: an escaped literal, optionally wrapped in
  word-boundary assertions (`whole_word`) and case-folded
  (`case_sensitive=False`); `finditer`/`subn` follow CPython's
  left-to-right non-overlapping scan, advancing by one after an
  empty-width match.
-/

namespace Epsilon

/-! ## Python string primitives -/

/-- The whitespace characters stripped by Python `str.strip()`. -/
def isPySpace (c : Char) : Bool :=
  c = ' ' || c = '\t' || c = '\n' || c = '\r' || c = Char.ofNat 11 || c = Char.ofNat 12

/-- Python `str.strip()`: remove leading and trailing whitespace. -/
def pyStrip (s : String) : String :=
  ⟨(s.data.dropWhile isPySpace).reverse.dropWhile isPySpace |>.reverse⟩

/-- Python `s[a:b]` for non-negative indices (clamping slice semantics). -/
def strSlice (s : String) (a b : Nat) : String :=
  ⟨(s.data.drop a).take (b - a)⟩

/-- Python `s[:n]` for non-negative `n`. -/
def strTakeTo (s : String) (n : Nat) : String := ⟨s.data.take n⟩

/-- Python `s[n:]` for non-negative `n`. -/
def strFrom (s : String) (n : Nat) : String := ⟨s.data.drop n⟩

/-- Python `big.endswith(small)`. -/
def strEndsWith (big small : String) : Bool :=
  small.data.isSuffixOf big.data

/-- Python `small in big` (substring containment), used for
`"html" in item.media_type`. -/
def strContainsSub (big small : String) : Bool :=
  List.range (big.length + 1) |>.any fun i => small.data.isPrefixOf (big.data.drop i)

/-- Hexadecimal digit value, as accepted by `urllib.parse.unquote`. -/
def hexVal? (c : Char) : Option Nat :=
  if '0' ≤ c ∧ c ≤ '9' then some (c.toNat - '0'.toNat)
  else if 'a' ≤ c ∧ c ≤ 'f' then some (c.toNat - 'a'.toNat + 10)
  else if 'A' ≤ c ∧ c ≤ 'F' then some (c.toNat - 'A'.toNat + 10)
  else none

/-- `urllib.parse.unquote` on percent-escapes: `%HH` becomes the character
with code `HH`, malformed escapes are kept verbatim.  (Faithful to CPython
for ASCII escape sequences, the only ones arising here; multi-byte UTF-8
escape runs are out of scope of this model.) -/
def unquoteChars : List Char → List Char
  | [] => []
  | '%' :: h1 :: h2 :: rest =>
    match hexVal? h1, hexVal? h2 with
    | some v1, some v2 => Char.ofNat (16 * v1 + v2) :: unquoteChars rest
    | _, _ => '%' :: unquoteChars (h1 :: h2 :: rest)
  | c :: rest => c :: unquoteChars rest

def unquote (s : String) : String := ⟨unquoteChars s.data⟩

/-! ## Archive model (`zipfile`) -/

/-- One member of a ZIP archive: name, decompressed bytes, compression
method (`0` = `ZIP_STORED`, `8` = `ZIP_DEFLATED`). -/
structure ZipEntry where
  filename : String
  content : String
  compressType : Nat
  deriving DecidableEq, Repr

/-- `ZipFile.getinfo`/`read` by name.  CPython's `NameToInfo` map is built
front to back, so for duplicate names the last entry wins. -/
def zipLookup (entries : List ZipEntry) (name : String) : Option ZipEntry :=
  entries.reverse.find? fun e => e.filename = name

/-! ## Python dict as insertion-ordered association list -/

/-- `d[k] = v`: overwrite in place if the key exists (Python dicts keep the
original insertion position), otherwise append. -/
def dictInsert : List (String × String) → String → String → List (String × String)
  | [], k, v => [(k, v)]
  | (k', v') :: rest, k, v =>
    if k' = k then (k, v) :: rest else (k', v') :: dictInsert rest k v

/-- `d.get(k)` / `k in d`. -/
def dictGet? (d : List (String × String)) (k : String) : Option String :=
  (d.find? fun p => p.1 = k).map Prod.snd

/-- `d.keys()` in insertion order. -/
def dictKeys (d : List (String × String)) : List String := d.map Prod.fst

/-! ## Document model (`epub_model.py`) -/

/-- `ManifestItem` from `epub_model.py`. -/
structure ManifestItem where
  id : String
  href : String
  mediaType : String
  properties : Option String := none
  deriving DecidableEq, Repr

/-- The state of an `EpubBook` together with its `ContentManager`:
`opf_dir`, the archive backing `filepath`, the manifest (in dict-value
order), the `_content_cache`, and the `is_modified` flag. -/
structure Book where
  opfDir : String
  archive : List ZipEntry
  manifest : List ManifestItem
  cache : List (String × String)
  isModified : Bool
  deriving DecidableEq, Repr

/-! ## Content manager (`content_manager.py`) -/

/- The path resolution performed by `ContentManager.get_content`:
`(Path(self._book.opf_dir) / urllib.parse.unquote(item_href)).as_posix()`.
`pathlib` drops empty and `"."` components, keeps `".."` components
verbatim, replaces everything when the right operand is absolute, and
renders an empty relative path as `"."`. -/
/-- Split on `'/'` (the component list of a POSIX path). -/
def splitSlash : List Char → List String
  | [] => [""]
  | '/' :: rest => "" :: splitSlash rest
  | c :: rest =>
    match splitSlash rest with
    | [] => [⟨[c]⟩]
    | piece :: more => (⟨c :: piece.data⟩ : String) :: more

def joinSlash : List String → String
  | [] => ""
  | [p] => p
  | p :: rest => p ++ "/" ++ joinSlash rest

def isAbsPath (s : String) : Bool :=
  match s.data with
  | '/' :: _ => true
  | _ => false

def pathParts (s : String) : List String :=
  (splitSlash s.data).filter fun c => c ≠ "" ∧ c ≠ "."

def resolveHrefPath (opfDir href : String) : String :=
  let decoded := unquote href
  if isAbsPath decoded then
    "/" ++ joinSlash (pathParts decoded)
  else
    let parts := pathParts opfDir ++ pathParts decoded
    if isAbsPath opfDir then "/" ++ joinSlash parts
    else if parts = [] then "." else joinSlash parts

/-- `ContentManager.get_content`: cached bytes if present; otherwise read
the archive member at the resolved path, memoize it under the original
href and return it; `none` models the `FileNotFoundError` raised when the
resolved path is absent. -/
def getContent (b : Book) (href : String) : Option String × Book :=
  match dictGet? b.cache href with
  | some c => (some c, b)
  | none =>
    match zipLookup b.archive (resolveHrefPath b.opfDir href) with
    | some e => (some e.content, { b with cache := dictInsert b.cache href e.content })
    | none => (none, b)

/-- `ContentManager.update_content`: overwrite the cache entry and set
`is_modified`. -/
def updateContent (b : Book) (href content : String) : Book :=
  { b with cache := dictInsert b.cache href content, isModified := true }

/-- The observable content of an href: what `get_content` would return. -/
def contentView (b : Book) (href : String) : Option String :=
  (getContent b href).1

/-! ## Archive saver (`epub_saver.py`) -/

/-- `EpubSaver._write_mimetype`: `getinfo("mimetype")` (`none` models the
`KeyError`), re-written with `compress_type=ZIP_STORED`. -/
def writeMimetype (orig : List ZipEntry) : Option ZipEntry :=
  (zipLookup orig "mimetype").map fun e => { e with compressType := 0 }

/-- `EpubSaver._write_unmodified_files`: copy every original member other
than `mimetype` whose name does not end with any href of `modified_files`
(the cache's key set), verbatim. -/
def writeUnmodified (orig : List ZipEntry) (modified : List String) : List ZipEntry :=
  orig.filter fun e =>
    e.filename ≠ "mimetype" ∧ ¬ (modified.any fun h => strEndsWith e.filename h)

/-- `EpubSaver._write_modified_files`: for each cache entry, write its
content under the first original member whose name ends with the href
(keeping that member's metadata), or freshly under the href itself
(the archive-wide default `ZIP_DEFLATED`). -/
def rewriteEntry (orig : List ZipEntry) (p : String × String) : ZipEntry :=
  match orig.find? (fun e => strEndsWith e.filename p.1) with
  | some info => { info with content := p.2 }
  | none => { filename := p.1, content := p.2, compressType := 8 }

def writeModified (orig : List ZipEntry) (cache : List (String × String)) :
    List ZipEntry :=
  cache.map (rewriteEntry orig)

/-- The saver's `modified_files = self.book.content_manager._content_cache.keys()`. -/
def modifiedFiles (b : Book) : List String := dictKeys b.cache

/-- The member list written to the temporary archive by steps 2–4 of
`EpubSaver.save` (`none` when `getinfo("mimetype")` raises). -/
def savedEntries (b : Book) : Option (List ZipEntry) :=
  (writeMimetype b.archive).map fun m =>
    m :: (writeUnmodified b.archive (modifiedFiles b) ++ writeModified b.archive b.cache)

/-- The three on-disk files `EpubSaver.save` manipulates; each holds an
archive value when the file exists. -/
structure SaveFS where
  orig : Option (List ZipEntry)
  temp : Option (List ZipEntry)
  backupFile : Option (List ZipEntry)
  deriving DecidableEq, Repr

/-- `EpubSaver.save`.  `fault` injects an exception raised while the
temporary archive is being built (steps 1–4); `none` means the build runs
normally (it can still fail if `mimetype` is absent).  The `except` block
removes the temporary file and re-raises as
`IOError("Failed to save EPUB file: ...")`; on success the backup rename
(if requested and the original exists) precedes the final rename, and the
book's flag and cache are cleared. -/
def saveRun (b : Book) (fs : SaveFS) (fault : Option String) (backup : Bool) :
    SaveFS × Option String × Book :=
  if b.isModified = false then (fs, none, b)
  else
    match fault with
    | some e => ({ fs with temp := none }, some ("Failed to save EPUB file: " ++ e), b)
    | none =>
      match savedEntries b with
      | none =>
        ({ fs with temp := none }, some "Failed to save EPUB file: 'mimetype'", b)
      | some entries =>
        let fs1 : SaveFS := { fs with temp := some entries }
        let fs2 : SaveFS :=
          if backup ∧ fs1.orig.isSome then
            { fs1 with backupFile := fs1.orig, orig := none }
          else fs1
        let fs3 : SaveFS := { fs2 with orig := fs2.temp, temp := none }
        (fs3, none, { b with isModified := false, cache := [] })

/-! ## Loader validation (`epub_loader.py`, `_validate_epub`) -/

/-- `bytes.decode('ascii')` succeeds exactly when every byte is below 128. -/
def allAscii (s : String) : Bool := s.data.all fun c => c.toNat < 128

/-- `EpubLoader._validate_epub` on an already-open archive; `some msg`
models the raised `InvalidEpubFileError` (the spec's `InvalidContainer`).
The checks run in source order: mimetype presence/decodability/content,
then first-member name, then first-member compression, then the presence
of `META-INF/container.xml`. -/
def validateEpub (archive : List ZipEntry) : Option String :=
  match zipLookup archive "mimetype" with
  | none => some "Required 'mimetype' file not found in the EPUB archive."
  | some e =>
    if allAscii e.content = false then some "Mimetype file is not ASCII encoded."
    else if pyStrip e.content ≠ "application/epub+zip" then
      some "Mimetype file has incorrect content: must be 'application/epub+zip'."
    else
      match archive with
      | [] => some "'mimetype' must be the first file in the EPUB archive."
      | first :: _ =>
        if first.filename ≠ "mimetype" then
          some "'mimetype' must be the first file in the EPUB archive."
        else if first.compressType ≠ 0 then
          some "'mimetype' file must not be compressed."
        else
          match zipLookup archive "META-INF/container.xml" with
          | none => some "Required 'META-INF/container.xml' file not found."
          | some _ => none

/-! ## Metadata parsing (`epub_loader.py`, `_parse_metadata`) -/

/-- `EpubMetadata` from `epub_model.py`; `allMetadata` is the
insertion-ordered `all_metadata` dict of string lists. -/
structure EpubMetadata where
  title : Option String := none
  creator : Option String := none
  language : Option String := none
  identifier : Option String := none
  publisher : Option String := none
  date : Option String := none
  rights : Option String := none
  allMetadata : List (String × List String) := []
  deriving DecidableEq, Repr

/-- The keys of `metadata_mapping` in `_parse_metadata` (each maps to the
field of the same name). -/
def recognizedNames : List String :=
  ["title", "creator", "language", "identifier", "publisher", "date", "rights"]

/-- `setattr(metadata, metadata_mapping[tag_name], item.text)`. -/
def setField (md : EpubMetadata) (name : String) (v : Option String) : EpubMetadata :=
  if name = "title" then { md with title := v }
  else if name = "creator" then { md with creator := v }
  else if name = "language" then { md with language := v }
  else if name = "identifier" then { md with identifier := v }
  else if name = "publisher" then { md with publisher := v }
  else if name = "date" then { md with date := v }
  else if name = "rights" then { md with rights := v }
  else md

/-- `getattr` on the same field names, for stating properties. -/
def getField (md : EpubMetadata) (name : String) : Option String :=
  if name = "title" then md.title
  else if name = "creator" then md.creator
  else if name = "language" then md.language
  else if name = "identifier" then md.identifier
  else if name = "publisher" then md.publisher
  else if name = "date" then md.date
  else if name = "rights" then md.rights
  else none

/-- Appending to `all_metadata[tag_name]`, creating the list on first use
(`if tag_name not in metadata.all_metadata: ... = []; ....append(...)`). -/
def appendAll : List (String × List String) → String → String → List (String × List String)
  | [], k, v => [(k, [v])]
  | (k', vs) :: rest, k, v =>
    if k' = k then (k, vs ++ [v]) :: rest else (k', vs) :: appendAll rest k v

def lookupAll (am : List (String × List String)) (k : String) : List String :=
  ((am.find? fun p => p.1 = k).map Prod.snd).getD []

/-- One `<metadata>` child element: its namespace-stripped local tag name
and its `.text` (`none` models Python `None` for an empty element). -/
abbrev MetaChild := String × Option String

/-- The loop body of `_parse_metadata`: recognized tags overwrite the
single-valued field (even with `None`); any child with truthy text is
appended to `all_metadata`. -/
def parseMetaStep (md : EpubMetadata) (child : MetaChild) : EpubMetadata :=
  let md1 := if child.1 ∈ recognizedNames then setField md child.1 child.2 else md
  match child.2 with
  | some t =>
    if t ≠ "" then { md1 with allMetadata := appendAll md1.allMetadata child.1 t }
    else md1
  | none => md1

/-- `EpubLoader._parse_metadata` over the children of `<metadata>` in
document order. -/
def parseMetadata (children : List MetaChild) : EpubMetadata :=
  children.foldl parseMetaStep {}

/-- Specification helper: the text of the last child with the given local
name (`none` when there is no such child, or its text is `None`). -/
def lastText (children : List MetaChild) (name : String) : Option String :=
  (((children.reverse.find? fun c => c.1 = name).map Prod.snd)).getD none

/-- Specification helper: the non-empty texts of children with the given
local name, in encounter order. -/
def nonEmptyTexts (children : List MetaChild) (name : String) : List String :=
  children.filterMap fun c =>
    if c.1 = name then
      match c.2 with
      | some t => if t ≠ "" then some t else none
      | none => none
    else none

/-! ## Compiled patterns (`_compile_search_pattern`, non-regex path)

With `regex=False` the query is passed through `re.escape`, so the
compiled pattern matches the query verbatim; `whole_word` wraps it in
`\b...\b`; `case_sensitive=False` sets `re.IGNORECASE`.  The matcher
below embeds the regex engine's behavior on such escaped-literal
patterns (`\w`/case folding modelled on the ASCII range, which covers
all data in this development). -/

structure Pattern where
  query : String
  caseSensitive : Bool
  wholeWord : Bool
  deriving DecidableEq, Repr

def compileLiteral (query : String) (caseSensitive wholeWord : Bool) : Pattern :=
  ⟨query, caseSensitive, wholeWord⟩

/-- `\w` on the ASCII range: letters, digits, underscore. -/
def isWordChar (c : Char) : Bool :=
  ('a' ≤ c && c ≤ 'z') || ('A' ≤ c && c ≤ 'Z') || ('0' ≤ c && c ≤ '9') || c = '_'

def charFold (caseSensitive : Bool) (c : Char) : Char :=
  if caseSensitive then c else c.toLower

/-- Whether position `i` of the text is a word character (positions
outside the text count as non-word). -/
def wordAt (t : List Char) (i : Nat) : Bool :=
  match t.get? i with
  | some c => isWordChar c
  | none => false

/-- `\b`: the two sides of position `i` differ in word-ness. -/
def isBoundaryAt (t : List Char) (i : Nat) : Bool :=
  (if i = 0 then false else wordAt t (i - 1)) != wordAt t i

/-- Whether the compiled pattern matches at position `pos` of the text. -/
def matchesAt (p : Pattern) (t : List Char) (pos : Nat) : Bool :=
  let q := p.query.data.map (charFold p.caseSensitive)
  let window := (t.drop pos).take q.length |>.map (charFold p.caseSensitive)
  q = window && (pos + q.length ≤ t.length) &&
    (!p.wholeWord || (isBoundaryAt t pos && isBoundaryAt t (pos + q.length)))

/-- `pattern.finditer(text)`: the non-overlapping matches, scanned left to
right; after an empty-width match the scan advances by one position
(CPython's behavior), after a non-empty match it resumes at the match
end. -/
def finditerAux (p : Pattern) (t : List Char) : Nat → Nat → List (Nat × Nat)
  | 0, _ => []
  | fuel + 1, pos =>
    if pos > t.length then []
    else if matchesAt p t pos then
      let len := p.query.length
      if len = 0 then (pos, pos) :: finditerAux p t fuel (pos + 1)
      else (pos, pos + len) :: finditerAux p t fuel (pos + len)
    else if pos = t.length then []
    else finditerAux p t fuel (pos + 1)

def finditer (p : Pattern) (t : List Char) : List (Nat × Nat) :=
  finditerAux p t (t.length + 1) 0

/-- Splice a replacement over a sorted list of non-overlapping match
spans, starting from offset `cur`. -/
def applyMatches (t rep : List Char) : Nat → List (Nat × Nat) → List Char
  | cur, [] => t.drop cur
  | cur, (a, b) :: rest =>
    ((t.drop cur).take (a - cur)) ++ rep ++ applyMatches t rep b rest

/-- `pattern.subn(replacement, text)` for replacement strings without
backslash escapes (the editor passes the user's replacement text
verbatim). -/
def subn (p : Pattern) (rep : String) (s : String) : String × Nat :=
  let ms := finditer p s.data
  (⟨applyMatches s.data rep.data 0 ms⟩, ms.length)

/-! ## Markup documents (`BeautifulSoup(content, "lxml")`) -/

/-- A parsed document: element nodes and text nodes.  `style`/`script`
content is a single text node child of its element (lxml treats it as
raw text). -/
inductive HNode where
  | elem : String → List HNode → HNode
  | text : String → HNode

/- `soup.find_all(string=True)` paired with each string's `parent.name`:
depth-first, document order.  The root is the `[document]` object. -/
mutual
def textNodesOf (parent : String) : HNode → List (String × String)
  | .text s => [(s, parent)]
  | .elem tag cs => textNodesList tag cs
def textNodesList (parent : String) : List HNode → List (String × String)
  | [] => []
  | n :: ns => textNodesOf parent n ++ textNodesList parent ns
end

def textNodes (doc : HNode) : List (String × String) :=
  textNodesOf "[document]" doc

/-- `soup.find_all(string=True)` itself. -/
def findStrings (doc : HNode) : List String :=
  (textNodes doc).map Prod.fst

/- The loop of `_replace_in_file`: every text node whose parent is not
`style`/`script` is substituted with `pattern.subn`; the counts are
accumulated. -/
mutual
def replNode (p : Pattern) (rep : String) (parent : String) : HNode → HNode × Nat
  | .text s =>
    if parent = "style" ∨ parent = "script" then (.text s, 0)
    else
      let r := subn p rep s
      (.text r.1, r.2)
  | .elem tag cs =>
    let r := replList p rep tag cs
    (.elem tag r.1, r.2)
def replList (p : Pattern) (rep : String) (parent : String) : List HNode → List HNode × Nat
  | [] => ([], 0)
  | n :: ns =>
    let r1 := replNode p rep parent n
    let r2 := replList p rep parent ns
    (r1.1 :: r2.1, r1.2 + r2.2)
end

def replDoc (p : Pattern) (rep : String) (doc : HNode) : HNode × Nat :=
  replNode p rep "[document]" doc

/- `text_nodes[i].string.replace_with(new_text)` in `replace_single`:
replace the `i`-th text node (document order, unfiltered) with the given
string.  Threads the running text-node position. -/
mutual
def replaceNthAux (target : Nat) (ns : String) : Nat → HNode → HNode × Nat
  | pos, .text s => (if pos = target then .text ns else .text s, pos + 1)
  | pos, .elem tag cs =>
    let r := replaceNthList target ns pos cs
    (.elem tag r.1, r.2)
def replaceNthList (target : Nat) (ns : String) : Nat → List HNode → List HNode × Nat
  | pos, [] => ([], pos)
  | pos, n :: rest =>
    let r1 := replaceNthAux target ns pos n
    let r2 := replaceNthList target ns r1.2 rest
    (r1.1 :: r2.1, r2.2)
end

def replaceNthText (target : Nat) (ns : String) (doc : HNode) : HNode :=
  (replaceNthAux target ns 0 doc).1

/-! ## Parsing and pretty-printing markup

`BeautifulSoup(content, "lxml")` and `soup.prettify(encoding="utf-8")`,
modelled for the attribute-free markup handled in this development (tag
tokens delimited by `<`/`>`, a leading `/` marking a closing tag, text
runs between tags preserved verbatim).  The pretty printer follows bs4:
every tag and every text node on its own line, one space of indentation
per depth level, text nodes stripped, whitespace-only text nodes
omitted, the `[document]` root itself unprinted. -/

inductive Tok where
  | tagOpen : String → Tok
  | tagClose : String → Tok
  | txt : String → Tok
  deriving DecidableEq, Repr

def tokenizeAux : Nat → List Char → List Tok
  | 0, _ => []
  | _, [] => []
  | fuel + 1, '<' :: rest =>
    match rest with
    | '/' :: rest2 =>
      let name := rest2.takeWhile fun c => c ≠ '>'
      let rem := (rest2.dropWhile fun c => c ≠ '>').drop 1
      Tok.tagClose ⟨name⟩ :: tokenizeAux fuel rem
    | _ =>
      let inside := rest.takeWhile fun c => c ≠ '>'
      let name := inside.takeWhile fun c => c ≠ ' '
      let rem := (rest.dropWhile fun c => c ≠ '>').drop 1
      Tok.tagOpen ⟨name⟩ :: tokenizeAux fuel rem
  | fuel + 1, c :: rest =>
    let run := rest.takeWhile fun x => x ≠ '<'
    Tok.txt ⟨c :: run⟩ :: tokenizeAux fuel (rest.dropWhile fun x => x ≠ '<')

def tokenize (s : String) : List Tok := tokenizeAux s.length s.data

/-- Build a sibling sequence; a closing tag ends the current sequence. -/
def parseNodes : Nat → List Tok → List HNode × List Tok
  | 0, ts => ([], ts)
  | _, [] => ([], [])
  | fuel + 1, Tok.txt s :: rest =>
    let r := parseNodes fuel rest
    (HNode.text s :: r.1, r.2)
  | _ + 1, Tok.tagClose _ :: rest => ([], rest)
  | fuel + 1, Tok.tagOpen t :: rest =>
    let inner := parseNodes fuel rest
    let after := parseNodes fuel inner.2
    (HNode.elem t inner.1 :: after.1, after.2)

def parseHTML (s : String) : HNode :=
  HNode.elem "[document]" (parseNodes (tokenize s).length (tokenize s)).1

def indentSp (depth : Nat) : String := ⟨List.replicate depth ' '⟩

mutual
def prettyNode (depth : Nat) : HNode → String
  | .text s =>
    let t := pyStrip s
    if t = "" then "" else indentSp depth ++ t ++ "\n"
  | .elem tag cs =>
    indentSp depth ++ "<" ++ tag ++ ">\n" ++ prettyList (depth + 1) cs ++
      indentSp depth ++ "</" ++ tag ++ ">\n"
def prettyList (depth : Nat) : List HNode → String
  | [] => ""
  | n :: ns => prettyNode depth n ++ prettyList depth ns
end

/-- `soup.prettify(encoding="utf-8")`: the children of the `[document]`
root, pretty-printed from depth 0. -/
def prettify (doc : HNode) : String :=
  match doc with
  | .elem _ cs => prettyList 0 cs
  | .text s => prettyNode 0 (.text s)

/-! ## Search engine (`search_engine.py`) -/

/-- `SearchResult` from `search_models.py` (`node_index` and the match
offsets are the non-negative coordinates produced by `search`). -/
structure SearchResult where
  filePath : String
  itemHref : String
  nodeIndex : Nat
  matchStart : Nat
  matchEnd : Nat
  matchText : String
  context : String
  deriving DecidableEq, Repr

/-- `SearchEngine._search_in_file` after content retrieval and parsing:
one result per match of each text node (no `style`/`script` filter
here), with the matched slice as `match_text` and the node's full text
as `context`. -/
def searchInFile (href : String) (p : Pattern) (doc : HNode) : List SearchResult :=
  ((findStrings doc).enum.map fun pair =>
    (finditer p pair.2.data).map fun m =>
      { filePath := href, itemHref := href, nodeIndex := pair.1,
        matchStart := m.1, matchEnd := m.2,
        matchText := strSlice pair.2 m.1 m.2, context := pair.2 }).flatten

/-- `SearchEngine.search` once the pattern is compiled: walk the manifest
items whose media type contains `"html"`, fetch content through the
cache (items whose fetch raises are skipped silently), and collect the
per-file results in order. -/
def searchBook (b : Book) (p : Pattern) : List SearchResult × Book :=
  b.manifest.foldl
    (fun acc item =>
      if strContainsSub item.mediaType "html" then
        match getContent acc.2 item.href with
        | (some c, b') => (acc.1 ++ searchInFile item.href p (parseHTML c), b')
        | (none, b') => (acc.1, b')
      else acc)
    ([], b)

/-! ## Replace engine (`replace_engine.py`) -/

/-- `ReplaceEngine._replace_in_file`: fetch, parse, substitute outside
`style`/`script`, and write the prettified document back through
`update_content` when at least one substitution happened; a fetch
failure contributes zero. -/
def replaceInFileB (b : Book) (item : ManifestItem) (p : Pattern) (rep : String) :
    Nat × Book :=
  match getContent b item.href with
  | (none, b') => (0, b')
  | (some c, b') =>
    let doc := parseHTML c
    let r := replDoc p rep doc
    if r.2 > 0 then (r.2, updateContent b' item.href (prettify r.1))
    else (r.2, b')

/-- `ReplaceEngine.replace_all` with a non-regex pattern: the compiled
literal applied to every manifest item whose media type contains
`"html"`, accumulating the counts. -/
def replaceAll (b : Book) (find rep : String) (caseSensitive wholeWord : Bool) :
    Nat × Book :=
  let p := compileLiteral find caseSensitive wholeWord
  b.manifest.foldl
    (fun acc item =>
      if strContainsSub item.mediaType "html" then
        let r := replaceInFileB acc.2 item p rep
        (acc.1 + r.1, r.2)
      else acc)
    (0, b)

/-- `ReplaceEngine.batch_replace_all`: `replace_all` once per
`(find, replace)` rule, in order, under the shared flags, summing the
counts. -/
def batchReplaceAll (b : Book) (ops : List (String × String))
    (caseSensitive wholeWord : Bool) : Nat × Book :=
  ops.foldl
    (fun acc op =>
      let r := replaceAll acc.2 op.1 op.2 caseSensitive wholeWord
      (acc.1 + r.1, r.2))
    (0, b)

/-- `ReplaceEngine.replace_single`: re-extract the text nodes of the
result's item; report zero when the node index is out of range or the
recorded slice no longer matches; otherwise splice the replacement into
the node, write the prettified document back, and mark the book
modified. -/
def replaceSingle (b : Book) (sr : SearchResult) (rep : String) : Nat × Book :=
  match getContent b sr.itemHref with
  | (none, b') => (0, b')
  | (some c, b') =>
    let doc := parseHTML c
    let nodes := findStrings doc
    match nodes.get? sr.nodeIndex with
    | none => (0, b')
    | some orig =>
      if strSlice orig sr.matchStart sr.matchEnd ≠ sr.matchText then (0, b')
      else
        let newText := strTakeTo orig sr.matchStart ++ rep ++ strFrom orig sr.matchEnd
        let doc' := replaceNthText sr.nodeIndex newText doc
        let b2 := updateContent b' sr.itemHref (prettify doc')
        (1, { b2 with isModified := true })

/-! ## Sequential specification of batch replace (claim C9) -/

/-- Invoking `replace_all` once per rule in order, each rule operating on
the book state produced by the earlier rules, collecting the per-rule
counts. -/
def seqReplaceAll (b : Book) (ops : List (String × String))
    (caseSensitive wholeWord : Bool) : List Nat × Book :=
  match ops with
  | [] => ([], b)
  | op :: rest =>
    let r := replaceAll b op.1 op.2 caseSensitive wholeWord
    let s := seqReplaceAll r.2 rest caseSensitive wholeWord
    (r.1 :: s.1, s.2)

/-! ## Spec-side path normalization (claim C6)

The specification describes href resolution as "normalized to remove
`.` / `..` segments"; this second definition follows the spec's words
(a `..` segment removes the preceding component) for comparison with
the source-derived `resolveHrefPath`. -/

def specNormalize (parts : List String) : List String :=
  parts.foldl (fun acc c => if c = ".." then acc.dropLast else acc ++ [c]) []

def resolveHrefPathSpec (opfDir href : String) : String :=
  joinSlash (specNormalize (pathParts opfDir ++ pathParts (unquote href)))

/-- The effect of `_replace_in_file` on one text node, as a function of
its parent's name (claim C3). -/
def replMapFn (p : Pattern) (rep : String) (q : String × String) : String × String :=
  if q.2 = "style" ∨ q.2 = "script" then q else ((subn p rep q.1).1, q.2)

/-! ## Concrete books and documents used by witnesses and counterexamples -/

/-- A one-chapter book matching the repository's own test fixture
(`test_replace_engine.py`). -/
def bkEx : Book :=
  { opfDir := ".",
    archive := [⟨"mimetype", "application/epub+zip", 0⟩,
                ⟨"ch1.xhtml",
                 "<html><body><p>This is a test to test replacement.</p></body></html>", 8⟩],
    manifest := [⟨"ch1", "ch1.xhtml", "application/xhtml+xml", none⟩],
    cache := [], isModified := false }

/-- A book whose only read access is `get_content("a.xhtml")` and whose
only update is `update_content("b.xhtml", "NEW")`. -/
def bC1base : Book :=
  { opfDir := ".",
    archive := [⟨"mimetype", "application/epub+zip", 0⟩,
                ⟨"a.xhtml", "AAA", 8⟩, ⟨"b.xhtml", "BBB", 8⟩],
    manifest := [⟨"a", "a.xhtml", "application/xhtml+xml", none⟩,
                 ⟨"b", "b.xhtml", "application/xhtml+xml", none⟩],
    cache := [], isModified := false }

def bC1 : Book := updateContent (getContent bC1base "a.xhtml").2 "b.xhtml" "NEW"

/-- A book with two members sharing the modified href as a path suffix. -/
def bC2base : Book :=
  { opfDir := "OEBPS",
    archive := [⟨"mimetype", "application/epub+zip", 0⟩,
                ⟨"OEBPS/other-ch1.xhtml", "B1", 8⟩,
                ⟨"OEBPS/ch1.xhtml", "B2", 8⟩],
    manifest := [⟨"other", "other-ch1.xhtml", "application/xhtml+xml", none⟩,
                 ⟨"ch1", "ch1.xhtml", "application/xhtml+xml", none⟩],
    cache := [], isModified := false }

def bC2 : Book := updateContent bC2base "ch1.xhtml" "NEW"

/-- A collision-free book with a member never read nor written
(`style.css`), one read through `get_content` (`notes.xhtml`) and one
passed to `update_content` (`chapter.xhtml`). -/
def bC2wbase : Book :=
  { opfDir := ".",
    archive := [⟨"mimetype", "application/epub+zip", 0⟩,
                ⟨"chapter.xhtml", "CCC", 8⟩,
                ⟨"style.css", "SSS", 8⟩,
                ⟨"notes.xhtml", "NNN", 8⟩],
    manifest := [⟨"ch", "chapter.xhtml", "application/xhtml+xml", none⟩,
                 ⟨"css", "style.css", "text/css", none⟩,
                 ⟨"nt", "notes.xhtml", "application/xhtml+xml", none⟩],
    cache := [], isModified := false }

def bC2w : Book := updateContent (getContent bC2wbase "notes.xhtml").2 "chapter.xhtml" "NEW"

/-- A book whose manifest href climbs out of the OPF directory with `..`. -/
def bC6 : Book :=
  { opfDir := "OEBPS",
    archive := [⟨"mimetype", "application/epub+zip", 0⟩, ⟨"text.xhtml", "TTT", 8⟩],
    manifest := [⟨"t", "../text.xhtml", "application/xhtml+xml", none⟩],
    cache := [], isModified := false }

/-- A book whose chapter carries searchable text inside a `<style>`
element. -/
def bC3 : Book :=
  { opfDir := ".",
    archive := [⟨"mimetype", "application/epub+zip", 0⟩,
                ⟨"ch1.xhtml",
                 "<html><head><style>secretcss</style></head><body><p>hello</p></body></html>", 8⟩],
    manifest := [⟨"ch1", "ch1.xhtml", "application/xhtml+xml", none⟩],
    cache := [], isModified := false }

/-! ## Association-list lemmas -/

theorem dictGet?_dictInsert (d : List (String × String)) (k v k' : String) :
    dictGet? (dictInsert d k v) k' = if k' = k then some v else dictGet? d k' := by
  induction d with
  | nil =>
    by_cases h : k' = k
    · subst h; simp [dictInsert, dictGet?]
    · simp [dictInsert, dictGet?, List.find?, decide_eq_false (Ne.symm h), h]
  | cons p rest ih =>
    obtain ⟨k1, v1⟩ := p
    simp only [dictInsert]
    by_cases h1 : k1 = k
    · subst h1
      rw [if_pos rfl]
      by_cases h : k' = k1
      · subst h; simp [dictGet?, List.find?]
      · simp [dictGet?, List.find?, decide_eq_false (Ne.symm h), h]
    · rw [if_neg h1]
      by_cases h : k' = k1
      · subst h
        simp [dictGet?, List.find?, h1]
      · simp only [dictGet?, List.find?, decide_eq_false (Ne.symm h)]
        exact ih

theorem dictGet?_some_mem_keys {d : List (String × String)} {k v : String}
    (h : dictGet? d k = some v) : k ∈ dictKeys d := by
  unfold dictGet? at h
  obtain ⟨p, hfind⟩ : ∃ p, d.find? (fun q => q.1 = k) = some p := by
    cases hf : d.find? fun q => q.1 = k with
    | none => simp [hf] at h
    | some p => exact ⟨p, rfl⟩
  have hmem := List.mem_of_find?_eq_some hfind
  have hp := List.find?_some hfind
  simp only [decide_eq_true_eq] at hp
  rw [← hp]
  exact List.mem_map_of_mem Prod.fst hmem

theorem mem_keys_dictInsert (d : List (String × String)) (k v : String) :
    k ∈ dictKeys (dictInsert d k v) := by
  induction d with
  | nil => simp [dictInsert, dictKeys]
  | cons p rest ih =>
    by_cases h : p.1 = k
    · obtain ⟨k1, v1⟩ := p
      simp only at h
      simp [dictInsert, h, dictKeys]
    · obtain ⟨k1, v1⟩ := p
      simp only at h
      simp only [dictInsert, if_neg h, dictKeys, List.map_cons, List.mem_cons]
      exact Or.inr ih

/-! ## Claim C7 -/

/-- C7: `load` fails with `InvalidContainer` (`InvalidEpubFileError`) in
each of the five cases: `mimetype` missing; `mimetype` not the first
member in archive order; `mimetype` compressed; trimmed `mimetype`
content not exactly `application/epub+zip`; `META-INF/container.xml`
missing. -/
theorem C7_validate_rejects (a : List ZipEntry) :
    (zipLookup a "mimetype" = none → (validateEpub a).isSome = true)
    ∧ (∀ first rest, a = first :: rest → first.filename ≠ "mimetype" →
        (validateEpub a).isSome = true)
    ∧ (∀ first rest, a = first :: rest → first.filename = "mimetype" →
        first.compressType ≠ 0 → (validateEpub a).isSome = true)
    ∧ (∀ e, zipLookup a "mimetype" = some e →
        pyStrip e.content ≠ "application/epub+zip" → (validateEpub a).isSome = true)
    ∧ (zipLookup a "META-INF/container.xml" = none → (validateEpub a).isSome = true) := by
  refine ⟨?_, ?_, ?_, ?_, ?_⟩
  · intro h
    simp [validateEpub, h]
  · rintro first rest rfl hne
    unfold validateEpub
    cases hm : zipLookup (first :: rest) "mimetype" with
    | none => simp
    | some e =>
      by_cases h1 : allAscii e.content = false
      · simp [h1]
      · by_cases h2 : pyStrip e.content ≠ "application/epub+zip" <;>
          simp [h1, h2, hne]
  · rintro first rest rfl hfn hcp
    unfold validateEpub
    cases hm : zipLookup (first :: rest) "mimetype" with
    | none => simp
    | some e =>
      by_cases h1 : allAscii e.content = false
      · simp [h1]
      · by_cases h2 : pyStrip e.content ≠ "application/epub+zip" <;>
          simp [h1, h2, hfn, hcp]
  · intro e hm hc
    unfold validateEpub
    rw [hm]
    by_cases h1 : allAscii e.content = false <;> simp [h1, hc]
  · intro h
    unfold validateEpub
    cases hm : zipLookup a "mimetype" with
    | none => simp
    | some e =>
      by_cases h1 : allAscii e.content = false
      · simp [h1]
      · by_cases h2 : pyStrip e.content ≠ "application/epub+zip"
        · simp [h1, h2]
        · cases a with
          | nil => simp [h1, h2]
          | cons first rest =>
            by_cases h3 : first.filename ≠ "mimetype"
            · simp [h1, h2, h3]
            · by_cases h4 : first.compressType ≠ 0 <;> simp [h1, h2, h3, h4, h]

/-- Witness for C7: each of the five violations on a concrete archive. -/
theorem C7_validate_rejects_witness :
    (validateEpub [⟨"META-INF/container.xml", "x", 8⟩]).isSome = true
    ∧ (validateEpub [⟨"a", "x", 0⟩, ⟨"mimetype", "application/epub+zip", 0⟩]).isSome = true
    ∧ (validateEpub [⟨"mimetype", "application/epub+zip", 8⟩]).isSome = true
    ∧ (validateEpub [⟨"mimetype", "text/plain", 0⟩]).isSome = true
    ∧ (validateEpub [⟨"mimetype", "application/epub+zip", 0⟩]).isSome = true := by
  refine ⟨?_, ?_, ?_, ?_, ?_⟩
  · exact (C7_validate_rejects _).1 (by decide)
  · exact (C7_validate_rejects _).2.1 _ _ rfl (by decide)
  · exact (C7_validate_rejects _).2.2.1 _ _ rfl (by decide) (by decide)
  · exact (C7_validate_rejects _).2.2.2.1 ⟨"mimetype", "text/plain", 0⟩ (by decide) (by decide)
  · exact (C7_validate_rejects _).2.2.2.2 (by decide)

/-! ## Claim C4 -/

/-- C4: if any failure occurs while the temporary archive is being built
(steps 1–4 of `save`), the temporary file is removed, the operation
fails with the wrapped error carrying the underlying cause, the original
file is untouched and no backup is created. -/
theorem C4_save_failure_atomic (b : Book) (fs : SaveFS) (e : String) (backup : Bool)
    (hmod : b.isModified = true) :
    saveRun b fs (some e) backup =
      ({ fs with temp := none }, some ("Failed to save EPUB file: " ++ e), b)
    ∧ (saveRun b fs (some e) backup).1.orig = fs.orig
    ∧ (saveRun b fs (some e) backup).1.backupFile = fs.backupFile
    ∧ (saveRun b fs (some e) backup).1.temp = none := by
  refine ⟨?_, ?_, ?_, ?_⟩ <;> simp [saveRun, hmod]

/-- Witness for C4 at a concrete modified book and populated filesystem. -/
theorem C4_save_failure_atomic_witness :
    saveRun bC1 ⟨some bC1.archive, none, none⟩ (some "disk full") true =
      (⟨some bC1.archive, none, none⟩, some "Failed to save EPUB file: disk full", bC1) := by
  have h := C4_save_failure_atomic bC1 ⟨some bC1.archive, none, none⟩ "disk full" true (by decide)
  exact h.1

/-! ## Claim C6 -/

/-- C6 counterexample: the claim says href resolution removes `..`
segments; the code's `pathlib` join keeps them.  For
`opf_dir = "OEBPS"`, `href = "../text.xhtml"` and an archive containing
`text.xhtml`, the spec-normalized path is present in the archive, yet
`get_content` fails (resolved path `OEBPS/../text.xhtml` is absent). -/
theorem C6_dotdot_counterexample :
    (getContent bC6 "../text.xhtml").1 = none
    ∧ resolveHrefPathSpec bC6.opfDir "../text.xhtml" = "text.xhtml"
    ∧ (zipLookup bC6.archive (resolveHrefPathSpec bC6.opfDir "../text.xhtml")).isSome = true
    ∧ resolveHrefPath bC6.opfDir "../text.xhtml" = "OEBPS/../text.xhtml" := by
  refine ⟨?_, ?_, ?_, ?_⟩ <;> decide

/-- C6 as amended: for an uncached href, `get_content` URL-decodes it,
joins it to `opf_dir` dropping `.` and empty segments but keeping `..`
segments verbatim; it returns the archive member's bytes at that
resolved path, caching them under the original href, and fails
(`FileNotFoundError`, the spec's `ContentNotFound`) exactly when the
resolved path is absent from the archive. -/
theorem C6_get_content_resolution (b : Book) (href : String)
    (h : dictGet? b.cache href = none) :
    (∀ e, zipLookup b.archive (resolveHrefPath b.opfDir href) = some e →
      getContent b href =
        (some e.content, { b with cache := dictInsert b.cache href e.content }))
    ∧ (zipLookup b.archive (resolveHrefPath b.opfDir href) = none →
        getContent b href = (none, b))
    ∧ ((getContent b href).1 = none ↔
        zipLookup b.archive (resolveHrefPath b.opfDir href) = none) := by
  refine ⟨?_, ?_, ?_⟩
  · intro e he
    simp [getContent, h, he]
  · intro he
    simp [getContent, h, he]
  · cases he : zipLookup b.archive (resolveHrefPath b.opfDir href) with
    | none => simp [getContent, h, he]
    | some e => simp [getContent, h, he]

/-- Witness for C6 at a concrete book and href. -/
theorem C6_get_content_resolution_witness :
    getContent bC6 "../text.xhtml" = (none, bC6) := by
  exact (C6_get_content_resolution bC6 "../text.xhtml" (by decide)).2.1 (by decide)

/-! ## Claim C1 -/

/-- C1 counterexample: `"a.xhtml"` was only ever read through
`get_content`, yet on save it is omitted from the verbatim-copy pass and
written from the Content Cache — the rewritten set is the cache's key
set, not the set of hrefs passed to `update_content`. -/
theorem C1_read_marks_modified_counterexample :
    modifiedFiles bC1 = ["a.xhtml", "b.xhtml"]
    ∧ ((writeUnmodified bC1.archive (modifiedFiles bC1)).all
        fun e => e.filename != "a.xhtml") = true
    ∧ ((writeModified bC1.archive bC1.cache).any
        fun e => e.filename == "a.xhtml" && e.content == "AAA") = true := by
  refine ⟨?_, ?_, ?_⟩ <;> decide

/-- C1 as amended: the set of archive members rewritten from the Content
Cache on save is exactly the cache's key set — the hrefs ever passed to
`update_content` **or** successfully read through `get_content` (a
read-only `get_content` call does add its href to the rewritten set,
with the original bytes).  No member whose path ends with a cached href
is copied from the original archive. -/
theorem C1_rewritten_set_is_cache (b : Book) :
    (∀ href c b', getContent b href = (some c, b') → href ∈ dictKeys b'.cache)
    ∧ (∀ href c, href ∈ dictKeys (updateContent b href c).cache)
    ∧ (∀ e, e ∈ writeUnmodified b.archive (modifiedFiles b) →
        ∀ h ∈ modifiedFiles b, strEndsWith e.filename h = false)
    ∧ (∀ p ∈ b.cache, rewriteEntry b.archive p ∈ writeModified b.archive b.cache
        ∧ (rewriteEntry b.archive p).content = p.2) := by
  refine ⟨?_, ?_, ?_, ?_⟩
  · intro href c b' hg
    unfold getContent at hg
    cases hd : dictGet? b.cache href with
    | some c0 =>
      rw [hd] at hg
      injection hg with h1 h2
      subst h2
      exact dictGet?_some_mem_keys hd
    | none =>
      rw [hd] at hg
      cases hz : zipLookup b.archive (resolveHrefPath b.opfDir href) with
      | none =>
        rw [hz] at hg
        injection hg with h1 h2
        simp at h1
      | some e =>
        rw [hz] at hg
        injection hg with h1 h2
        subst h2
        exact mem_keys_dictInsert b.cache href e.content
  · intro href c
    exact mem_keys_dictInsert b.cache href c
  · intro e he h hh
    unfold writeUnmodified at he
    have hfilt := (List.mem_filter.mp he).2
    simp only [decide_eq_true_eq] at hfilt
    have h2 : ((modifiedFiles b).any fun x => strEndsWith e.filename x) = false := by
      simpa using hfilt.2
    have h3 := List.any_eq_false.mp h2 h hh
    simpa using h3
  · intro p hp
    refine ⟨List.mem_map_of_mem (rewriteEntry b.archive) hp, ?_⟩
    unfold rewriteEntry
    cases b.archive.find? fun e => strEndsWith e.filename p.1 <;> rfl

/-- Witness for C1 at the concrete read/update trace. -/
theorem C1_rewritten_set_is_cache_witness :
    "a.xhtml" ∈ dictKeys (getContent bC1base "a.xhtml").2.cache
    ∧ "b.xhtml" ∈ dictKeys bC1.cache := by
  constructor
  · exact (C1_rewritten_set_is_cache bC1base).1 "a.xhtml" "AAA"
      (getContent bC1base "a.xhtml").2 (by decide)
  · exact (C1_rewritten_set_is_cache (getContent bC1base "a.xhtml").2).2.1 "b.xhtml" "NEW"

/-! ## Claim C2 -/

/-- C2 counterexample: with members `OEBPS/other-ch1.xhtml` and
`OEBPS/ch1.xhtml` and the single modified href `ch1.xhtml`, suffix
matching misfires — after save, the untouched member
`OEBPS/other-ch1.xhtml` no longer carries its original bytes (it
received the modified content) and `OEBPS/ch1.xhtml` is gone. -/
theorem C2_suffix_counterexample :
    (bC2base.archive.any
      fun e => e.filename == "OEBPS/other-ch1.xhtml" && e.content == "B1") = true
    ∧ (((saveRun bC2 ⟨some bC2.archive, none, none⟩ none true).1.orig.getD []).any
        fun e => e.filename == "OEBPS/other-ch1.xhtml" && e.content == "B1") = false
    ∧ (((saveRun bC2 ⟨some bC2.archive, none, none⟩ none true).1.orig.getD []).any
        fun e => e.filename == "OEBPS/ch1.xhtml") = false := by
  refine ⟨?_, ?_, ?_⟩ <;> decide

/-- C2 as amended: for a modified book — in particular one in which
exactly one manifest item's href was passed to `update_content`,
alongside any number of `get_content` reads (which also populate the
cache, see C1) — after save: the `mimetype` member is written verbatim
(stored); every other original member whose path does not end with
**any** cached href is present with identical bytes and metadata; and a
member that is the *first* member ending with some cached href and
whose bytes equal that cache entry (the case of an href that was only
read, absent suffix collisions) is likewise present byte-for-byte.  A
member whose path merely shares a cached href — modified or read — as a
path suffix may be dropped or overwritten, as the counterexample
shows. -/
theorem C2_save_preserves_others (b : Book) (fs : SaveFS) (backup : Bool)
    (mt : ZipEntry)
    (hmod : b.isModified = true)
    (hmt : zipLookup b.archive "mimetype" = some mt) :
    ∃ saved, (saveRun b fs none backup).1.orig = some saved
      ∧ ({ mt with compressType := 0 }) ∈ saved
      ∧ (∀ e ∈ b.archive, e.filename ≠ "mimetype" →
          (∀ h ∈ dictKeys b.cache, strEndsWith e.filename h = false) → e ∈ saved)
      ∧ (∀ p ∈ b.cache, ∀ e,
          b.archive.find? (fun x => strEndsWith x.filename p.1) = some e →
          p.2 = e.content → e ∈ saved) := by
  have hse : savedEntries b =
      some ({ mt with compressType := 0 } ::
        (writeUnmodified b.archive (modifiedFiles b) ++ writeModified b.archive b.cache)) := by
    simp [savedEntries, writeMimetype, hmt]
  refine ⟨{ mt with compressType := 0 } ::
      (writeUnmodified b.archive (modifiedFiles b) ++ writeModified b.archive b.cache),
    ?_, List.mem_cons_self _ _, ?_, ?_⟩
  · simp only [saveRun, hmod, hse, Bool.true_eq_false, if_false]
    split <;> simp
  · intro e he hne hall
    refine List.mem_cons_of_mem _ (List.mem_append_left _ ?_)
    refine List.mem_filter.mpr ⟨he, ?_⟩
    simp only [decide_eq_true_eq]
    refine ⟨hne, fun hcon => ?_⟩
    obtain ⟨h, hh, hsw⟩ := List.any_eq_true.mp hcon
    rw [hall h (by simpa [modifiedFiles] using hh)] at hsw
    exact Bool.false_ne_true hsw
  · intro p hp e hfind hcontent
    refine List.mem_cons_of_mem _ (List.mem_append_right _ ?_)
    have hre : rewriteEntry b.archive p = e := by
      unfold rewriteEntry
      rw [hfind, hcontent]
    rw [← hre]
    exact List.mem_map_of_mem _ hp

/-- Witness for C2 on a collision-free read/update trace: after reading
`notes.xhtml` and updating `chapter.xhtml`, the saved archive keeps
`mimetype`, the never-touched `style.css`, and the read-only
`notes.xhtml` byte-for-byte. -/
theorem C2_save_preserves_others_witness :
    ∃ saved,
      (saveRun bC2w ⟨some bC2w.archive, none, none⟩ none true).1.orig = some saved
      ∧ ({ filename := "mimetype", content := "application/epub+zip",
           compressType := 0 } : ZipEntry) ∈ saved
      ∧ (⟨"style.css", "SSS", 8⟩ : ZipEntry) ∈ saved
      ∧ (⟨"notes.xhtml", "NNN", 8⟩ : ZipEntry) ∈ saved := by
  obtain ⟨saved, h1, h2, h3, h4⟩ :=
    C2_save_preserves_others bC2w ⟨some bC2w.archive, none, none⟩ true
      ⟨"mimetype", "application/epub+zip", 0⟩ (by decide) (by decide)
  refine ⟨saved, h1, h2, ?_, ?_⟩
  · exact h3 ⟨"style.css", "SSS", 8⟩ (by decide) (by decide) (by decide)
  · exact h4 ("notes.xhtml", "NNN") (by decide) ⟨"notes.xhtml", "NNN", 8⟩
      (by decide) (by decide)

/-! ## Claim C10 -/

theorem setField_allMetadata (md : EpubMetadata) (m : String) (v : Option String) :
    (setField md m v).allMetadata = md.allMetadata := by
  unfold setField
  split_ifs <;> rfl

theorem getField_update_allMetadata (md : EpubMetadata) (x : List (String × List String))
    (n : String) : getField { md with allMetadata := x } n = getField md n := by
  unfold getField
  split_ifs <;> rfl

theorem getField_setField_same (md : EpubMetadata) (n : String) (v : Option String)
    (hn : n ∈ recognizedNames) : getField (setField md n v) n = v := by
  simp only [recognizedNames, List.mem_cons, List.not_mem_nil, or_false] at hn
  rcases hn with rfl | rfl | rfl | rfl | rfl | rfl | rfl <;> simp [setField, getField]

theorem getField_setField_ne (md : EpubMetadata) (m n : String) (v : Option String)
    (hmn : m ≠ n) (hn : n ∈ recognizedNames) :
    getField (setField md m v) n = getField md n := by
  simp only [recognizedNames, List.mem_cons, List.not_mem_nil, or_false] at hn
  rcases hn with rfl | rfl | rfl | rfl | rfl | rfl | rfl <;>
    · unfold setField
      split_ifs with h1 h2 h3 h4 h5 h6 <;> simp_all [getField]

theorem getField_parseMetaStep (md : EpubMetadata) (c : MetaChild) (n : String)
    (hn : n ∈ recognizedNames) :
    getField (parseMetaStep md c) n = if c.1 = n then c.2 else getField md n := by
  unfold parseMetaStep
  have hstep : ∀ md1 : EpubMetadata,
      getField (match c.2 with
        | some t =>
          if t ≠ "" then { md1 with allMetadata := appendAll md1.allMetadata c.1 t }
          else md1
        | none => md1) n = getField md1 n := by
    intro md1
    cases c.2 with
    | some t =>
      by_cases ht : t ≠ "" <;> simp [ht, getField_update_allMetadata]
    | none => rfl
  rw [hstep]
  by_cases hc : c.1 = n
  · subst hc
    rw [if_pos (by exact hn), if_pos rfl]
    exact getField_setField_same md c.1 c.2 hn
  · rw [if_neg hc]
    by_cases hr : c.1 ∈ recognizedNames
    · rw [if_pos hr]
      exact getField_setField_ne md c.1 n c.2 hc hn
    · rw [if_neg hr]

theorem parseMeta_getField_aux (n : String) (hn : n ∈ recognizedNames) :
    ∀ (children : List MetaChild) (md : EpubMetadata),
      getField (children.foldl parseMetaStep md) n =
        match children.reverse.find? (fun c => c.1 = n) with
        | some c => c.2
        | none => getField md n := by
  intro children
  induction children with
  | nil => intro md; simp
  | cons c rest ih =>
    intro md
    rw [List.foldl_cons, ih, List.reverse_cons, List.find?_append]
    cases hf : rest.reverse.find? (fun c => (c.1 = n : Bool)) with
    | some c' => simp [Option.or]
    | none =>
      simp only [Option.or]
      by_cases hc : c.1 = n
      · simp [List.find?, hc, getField_parseMetaStep md c n hn]
      · simp [List.find?, decide_eq_false hc, hc, getField_parseMetaStep md c n hn]

theorem lookupAll_appendAll_same (am : List (String × List String)) (k : String)
    (v : String) : lookupAll (appendAll am k v) k = lookupAll am k ++ [v] := by
  induction am with
  | nil => simp [appendAll, lookupAll, List.find?]
  | cons p rest ih =>
    obtain ⟨k1, vs⟩ := p
    by_cases h : k1 = k
    · subst h
      simp [appendAll, lookupAll, List.find?]
    · simp only [appendAll, if_neg h]
      simp only [lookupAll, List.find?, decide_eq_false h] at ih ⊢
      exact ih

theorem lookupAll_appendAll_ne (am : List (String × List String)) (k v n : String)
    (hkn : k ≠ n) : lookupAll (appendAll am k v) n = lookupAll am n := by
  induction am with
  | nil => simp [appendAll, lookupAll, List.find?, decide_eq_false hkn]
  | cons p rest ih =>
    obtain ⟨k1, vs⟩ := p
    by_cases h : k1 = k
    · subst h
      simp [appendAll, lookupAll, List.find?, decide_eq_false hkn]
    · simp only [appendAll, if_neg h]
      by_cases h2 : k1 = n
      · subst h2
        simp [lookupAll, List.find?]
      · simp only [lookupAll, List.find?, decide_eq_false h2] at ih ⊢
        exact ih

theorem allMetadata_parseMetaStep (md : EpubMetadata) (c : MetaChild) :
    (parseMetaStep md c).allMetadata =
      match c.2 with
      | some t => if t ≠ "" then appendAll md.allMetadata c.1 t else md.allMetadata
      | none => md.allMetadata := by
  have hbase : ∀ v, (if c.1 ∈ recognizedNames then setField md c.1 v else md).allMetadata
      = md.allMetadata := by
    intro v
    split_ifs with h
    · exact setField_allMetadata md c.1 v
    · rfl
  unfold parseMetaStep
  cases hc2 : c.2 with
  | some t => by_cases ht : t ≠ "" <;> simp [ht, hbase]
  | none => simpa using hbase none

theorem parseMeta_allMetadata_aux (n : String) :
    ∀ (children : List MetaChild) (md : EpubMetadata),
      lookupAll (children.foldl parseMetaStep md).allMetadata n =
        lookupAll md.allMetadata n ++ nonEmptyTexts children n := by
  intro children
  induction children with
  | nil => intro md; simp [nonEmptyTexts]
  | cons c rest ih =>
    intro md
    rw [List.foldl_cons, ih, allMetadata_parseMetaStep]
    obtain ⟨cn, ct⟩ := c
    cases ct with
    | none => simp [nonEmptyTexts, List.filterMap_cons]
    | some t =>
      by_cases ht : t ≠ ""
      · by_cases hc : cn = n
        · subst hc
          simp [ht, nonEmptyTexts, List.filterMap_cons, lookupAll_appendAll_same]
        · simp [ht, nonEmptyTexts, List.filterMap_cons, hc,
            lookupAll_appendAll_ne md.allMetadata cn t n hc]
      · simp only [ne_eq, not_not] at ht
        subst ht
        simp [nonEmptyTexts, List.filterMap_cons]

/-- C10: when `<metadata>` has several children with the same recognized
local tag name, the single-valued field after parsing holds the text of
the **last** such child in document order — even when that text is empty
or absent — while the `all_metadata` catch-all collects only the
non-empty texts, in encounter order. -/
theorem C10_metadata_repeats (children : List MetaChild) (n : String)
    (hn : n ∈ recognizedNames) :
    getField (parseMetadata children) n = lastText children n
    ∧ lookupAll (parseMetadata children).allMetadata n = nonEmptyTexts children n := by
  constructor
  · rw [parseMetadata, parseMeta_getField_aux n hn children {}]
    unfold lastText
    cases hf : children.reverse.find? (fun c => (c.1 = n : Bool)) with
    | some c => simp
    | none =>
      simp only [Option.map_none', Option.getD_none]
      simp only [recognizedNames, List.mem_cons, List.not_mem_nil, or_false] at hn
      rcases hn with rfl | rfl | rfl | rfl | rfl | rfl | rfl <;> simp [getField]
  · rw [parseMetadata, parseMeta_allMetadata_aux n children {}]
    simp [lookupAll]

/-- Witness for C10: two `dc:creator` children, the last with empty
text — the field keeps the empty last text, the catch-all keeps only the
non-empty first one. -/
theorem C10_metadata_repeats_witness :
    getField (parseMetadata [("creator", some "Alice"), ("creator", some "")]) "creator"
      = some ""
    ∧ lookupAll (parseMetadata
        [("creator", some "Alice"), ("creator", some "")]).allMetadata "creator"
      = ["Alice"] := by
  have h := C10_metadata_repeats [("creator", some "Alice"), ("creator", some "")]
    "creator" (by decide)
  exact ⟨h.1.trans (by decide), h.2.trans (by decide)⟩

/-! ## Claim C9 -/

theorem batchReplaceAll_foldl_aux (caseSensitive wholeWord : Bool) :
    ∀ (ops : List (String × String)) (b : Book) (n : Nat),
      ops.foldl
        (fun acc op =>
          let r := replaceAll acc.2 op.1 op.2 caseSensitive wholeWord
          (acc.1 + r.1, r.2)) (n, b)
      = (n + (seqReplaceAll b ops caseSensitive wholeWord).1.sum,
         (seqReplaceAll b ops caseSensitive wholeWord).2) := by
  intro ops
  induction ops with
  | nil => intro b n; simp [seqReplaceAll]
  | cons op rest ih =>
    intro b n
    rw [List.foldl_cons, ih]
    simp [seqReplaceAll, Nat.add_assoc]

/-- C9: `batch_replace_all` equals invoking `replace_all` once per rule
in the given order — each rule operating on the book state produced by
the earlier rules — returning the sum of the per-rule counts; on the
fixture book, the rules `("test","sample")` then
`("replacement","substitution")` report 3 total replacements and leave
content containing `"a sample to sample substitution"`. -/
theorem C9_batch_replace (b : Book) (ops : List (String × String))
    (caseSensitive wholeWord : Bool) :
    batchReplaceAll b ops caseSensitive wholeWord
      = ((seqReplaceAll b ops caseSensitive wholeWord).1.sum,
         (seqReplaceAll b ops caseSensitive wholeWord).2)
    ∧ (batchReplaceAll bkEx [("test", "sample"), ("replacement", "substitution")]
        true false).1 = 3
    ∧ strContainsSub
        ((contentView (batchReplaceAll bkEx
            [("test", "sample"), ("replacement", "substitution")] true false).2
          "ch1.xhtml").getD "")
        "a sample to sample substitution" = true := by
  refine ⟨?_, by decide, by decide⟩
  rw [batchReplaceAll, batchReplaceAll_foldl_aux]
  simp

/-! ## Claim C8 -/

theorem matchesAt_end_le (p : Pattern) (t : List Char) (pos : Nat)
    (h : matchesAt p t pos = true) : pos + p.query.length ≤ t.length := by
  unfold matchesAt at h
  simp only [Bool.and_eq_true, decide_eq_true_eq] at h
  have h2 := h.1.2
  rw [List.length_map] at h2
  exact h2

theorem finditerAux_mem_bounds (p : Pattern) (t : List Char) :
    ∀ (fuel pos a b : Nat), (a, b) ∈ finditerAux p t fuel pos →
      pos ≤ a ∧ a ≤ b ∧ b ≤ t.length := by
  intro fuel
  induction fuel with
  | zero => intro pos a b h; simp [finditerAux] at h
  | succ fuel ih =>
    intro pos a b h
    simp only [finditerAux] at h
    split_ifs at h with h1 h2 h3 h4
    · simp at h
    · rcases List.mem_cons.mp h with heq | hrec
      · cases heq
        exact ⟨Nat.le_refl _, Nat.le_refl _, Nat.le_of_not_lt h1⟩
      · obtain ⟨hp, hab, hbl⟩ := ih (pos + 1) a b hrec
        omega
    · rcases List.mem_cons.mp h with heq | hrec
      · cases heq
        exact ⟨Nat.le_refl _, Nat.le_add_right _ _, matchesAt_end_le p t pos h2⟩
      · obtain ⟨hp, hab, hbl⟩ := ih (pos + p.query.length) a b hrec
        refine ⟨?_, hab, hbl⟩
        omega
    · simp at h
    · obtain ⟨hp, hab, hbl⟩ := ih (pos + 1) a b h
      omega

theorem searchInFile_bounds (href : String) (p : Pattern) (doc : HNode) :
    ∀ r ∈ searchInFile href p doc,
      r.matchStart ≤ r.matchEnd ∧ r.matchEnd ≤ r.context.length ∧
      strSlice r.context r.matchStart r.matchEnd = r.matchText := by
  intro r hr
  unfold searchInFile at hr
  rw [List.mem_flatten] at hr
  obtain ⟨inner, hinner, hrin⟩ := hr
  rw [List.mem_map] at hinner
  obtain ⟨pair, hpair, rfl⟩ := hinner
  rw [List.mem_map] at hrin
  obtain ⟨m, hm, rfl⟩ := hrin
  obtain ⟨m1, m2⟩ := m
  obtain ⟨h0, hab, hbl⟩ :=
    finditerAux_mem_bounds p pair.2.data (pair.2.data.length + 1) 0 m1 m2 hm
  exact ⟨hab, hbl, rfl⟩

theorem searchBook_foldl_aux (p : Pattern) (P : SearchResult → Prop)
    (hfile : ∀ href doc r, r ∈ searchInFile href p doc → P r) :
    ∀ (items : List ManifestItem) (acc : List SearchResult × Book),
      (∀ r ∈ acc.1, P r) →
      ∀ r ∈ (items.foldl
        (fun acc item =>
          if strContainsSub item.mediaType "html" then
            match getContent acc.2 item.href with
            | (some c, b') => (acc.1 ++ searchInFile item.href p (parseHTML c), b')
            | (none, b') => (acc.1, b')
          else acc) acc).1, P r := by
  intro items
  induction items with
  | nil => intro acc hacc r hr; exact hacc r hr
  | cons item rest ih =>
    intro acc hacc r hr
    rw [List.foldl_cons] at hr
    refine ih _ ?_ r hr
    by_cases hmedia : strContainsSub item.mediaType "html"
    · simp only [hmedia, if_true]
      rcases hgc : getContent acc.2 item.href with ⟨o, b'⟩
      cases o with
      | some c =>
        simp only
        intro r2 hr2
        rcases List.mem_append.mp hr2 with hold | hnew
        · exact hacc r2 hold
        · exact hfile item.href (parseHTML c) r2 hnew
      | none =>
        simp only
        intro r2 hr2
        exact hacc r2 hr2
    · simp only [hmedia, if_false]
      exact hacc

/-- C8 as amended: every `SearchResult` produced by `search` satisfies
`match_start ≤ match_end ≤ length(context)` and
`context[match_start:match_end] == match_text` at the time it is
produced (the strict `match_start < match_end` of the claim fails for
empty-width matches). -/
theorem C8_search_result_invariant (b : Book) (p : Pattern) (r : SearchResult)
    (hr : r ∈ (searchBook b p).1) :
    r.matchStart ≤ r.matchEnd ∧ r.matchEnd ≤ r.context.length ∧
    strSlice r.context r.matchStart r.matchEnd = r.matchText := by
  unfold searchBook at hr
  exact searchBook_foldl_aux p _ (fun href doc r hmem => searchInFile_bounds href p doc r hmem)
    b.manifest ([], b) (by intro r2 hr2; simp at hr2) r hr

/-- Witness for C8 at a concrete search over the fixture book. -/
theorem C8_search_result_invariant_witness :
    (⟨"ch1.xhtml", "ch1.xhtml", 0, 10, 14, "test",
      "This is a test to test replacement."⟩ : SearchResult)
      ∈ (searchBook bkEx (compileLiteral "test" true false)).1
    ∧ (10 ≤ 14 ∧ 14 ≤ ("This is a test to test replacement." : String).length ∧
        strSlice "This is a test to test replacement." 10 14 = "test") := by
  refine ⟨by decide, ?_⟩
  exact C8_search_result_invariant bkEx (compileLiteral "test" true false)
    ⟨"ch1.xhtml", "ch1.xhtml", 0, 10, 14, "test", "This is a test to test replacement."⟩
    (by decide)

/-- C8 counterexample: an empty query compiles to an empty-width literal
whose matches have `match_start = match_end`, violating the claim's
strict `match_start < match_end`. -/
theorem C8_empty_match_counterexample :
    ((searchBook bkEx (compileLiteral "" false false)).1.all
      fun r => decide (r.matchStart < r.matchEnd)) = false
    ∧ (searchBook bkEx (compileLiteral "" false false)).1 ≠ [] := by
  constructor <;> decide

/-! ## Claim C3 -/

mutual
theorem textNodes_replNode_eq (p : Pattern) (rep : String) :
    ∀ (parent : String) (n : HNode),
      textNodesOf parent (replNode p rep parent n).1 =
        (textNodesOf parent n).map (replMapFn p rep)
  | parent, .text s => by
    by_cases h : parent = "style" ∨ parent = "script" <;>
      simp [replNode, textNodesOf, replMapFn, h]
  | parent, .elem tag cs => by
    simp only [replNode, textNodesOf]
    exact textNodes_replList_eq p rep tag cs
theorem textNodes_replList_eq (p : Pattern) (rep : String) :
    ∀ (parent : String) (ns : List HNode),
      textNodesList parent (replList p rep parent ns).1 =
        (textNodesList parent ns).map (replMapFn p rep)
  | parent, [] => by simp [replList, textNodesList]
  | parent, n :: rest => by
    simp only [replList, textNodesList, List.map_append]
    rw [textNodes_replNode_eq p rep parent n, textNodes_replList_eq p rep parent rest]
end

/-- C3 counterexample: search does **not** exclude `style`/`script`
contents — on a chapter whose `<style>` element contains `secretcss`,
searching for it yields exactly one result, and that result's matched
node lies inside the `style` element. -/
theorem C3_search_in_style_counterexample :
    (searchBook bC3 (compileLiteral "secretcss" true false)).1.length = 1
    ∧ ((searchBook bC3 (compileLiteral "secretcss" true false)).1.all fun r =>
        decide ((((textNodes (parseHTML
          "<html><head><style>secretcss</style></head><body><p>hello</p></body></html>")).get?
            r.nodeIndex).map Prod.snd) = some "style")) = true := by
  constructor <;> decide

/-- C3 as amended: the substitution pass of `replace_all` skips text
nodes whose parent is a `style` or `script` element, leaving them (and
their positions) unchanged — but the text-node sequence that `search`
extracts does not exclude them, so search can yield results inside
`style`/`script` (see the counterexample). -/
theorem C3_replace_skips_style_script (p : Pattern) (rep : String) (doc : HNode)
    (i : Nat) (s par : String)
    (hi : (textNodes doc).get? i = some (s, par))
    (hp : par = "style" ∨ par = "script") :
    (textNodes (replDoc p rep doc).1).get? i = some (s, par) := by
  unfold textNodes replDoc at *
  rw [textNodes_replNode_eq]
  rw [List.get?_eq_getElem?, List.getElem?_map, ← List.get?_eq_getElem?, hi]
  simp [replMapFn, hp]

/-- Witness for C3 on the style-bearing fixture document. -/
theorem C3_replace_skips_style_script_witness :
    (textNodes (replDoc (compileLiteral "secretcss" true false) "x"
      (parseHTML
        "<html><head><style>secretcss</style></head><body><p>hello</p></body></html>")).1).get? 0
      = some ("secretcss", "style") := by
  exact C3_replace_skips_style_script (compileLiteral "secretcss" true false) "x"
    (parseHTML
      "<html><head><style>secretcss</style></head><body><p>hello</p></body></html>")
    0 "secretcss" "style" (by decide) (Or.inl rfl)

/-! ## Claim C5 -/

theorem getContent_snd_isModified (b : Book) (href : String) :
    (getContent b href).2.isModified = b.isModified := by
  unfold getContent
  cases hd : dictGet? b.cache href with
  | some c => rfl
  | none =>
    cases hz : zipLookup b.archive (resolveHrefPath b.opfDir href) with
    | some e => rfl
    | none => rfl

theorem getContent_view_preserved (b : Book) (href h2 : String) :
    contentView (getContent b href).2 h2 = contentView b h2 := by
  cases hd : dictGet? b.cache href with
  | some c => simp [getContent, hd]
  | none =>
    cases hz : zipLookup b.archive (resolveHrefPath b.opfDir href) with
    | none => simp [getContent, hd, hz]
    | some e =>
      simp only [getContent, hd, hz]
      by_cases hh : h2 = href
      · subst hh
        simp [contentView, getContent, dictGet?_dictInsert, hd, hz]
      · cases hd2 : dictGet? b.cache h2 with
        | some c2 => simp [contentView, getContent, dictGet?_dictInsert, hh, hd2]
        | none =>
          cases hz2 : zipLookup b.archive (resolveHrefPath b.opfDir h2) with
          | some e2 => simp [contentView, getContent, dictGet?_dictInsert, hh, hd2, hz2]
          | none => simp [contentView, getContent, dictGet?_dictInsert, hh, hd2, hz2]

/-- C5: once `replace_single` has fetched the current content `c` of the
result's item, it re-extracts the text nodes of `c`; when `node_index`
is out of range, or the recorded `[match_start:match_end)` slice of the
indexed node no longer equals `match_text`, it returns 0 and mutates
nothing observable (no content change, `is_modified` untouched);
otherwise it splices `replace_text` into exactly that offset range,
writes the reserialized document back via `update_content`, marks the
book modified, and returns 1. -/
theorem C5_replace_single_guard (b : Book) (sr : SearchResult) (rep : String)
    (c : String) (b₁ : Book) (hc : getContent b sr.itemHref = (some c, b₁)) :
    ((findStrings (parseHTML c)).length ≤ sr.nodeIndex →
      replaceSingle b sr rep = (0, b₁)
      ∧ b₁.isModified = b.isModified
      ∧ ∀ h, contentView b₁ h = contentView b h)
    ∧ (∀ orig, (findStrings (parseHTML c)).get? sr.nodeIndex = some orig →
        strSlice orig sr.matchStart sr.matchEnd ≠ sr.matchText →
        replaceSingle b sr rep = (0, b₁)
        ∧ b₁.isModified = b.isModified
        ∧ ∀ h, contentView b₁ h = contentView b h)
    ∧ (∀ orig, (findStrings (parseHTML c)).get? sr.nodeIndex = some orig →
        strSlice orig sr.matchStart sr.matchEnd = sr.matchText →
        replaceSingle b sr rep =
          (1, { updateContent b₁ sr.itemHref
                  (prettify (replaceNthText sr.nodeIndex
                    (strTakeTo orig sr.matchStart ++ rep ++ strFrom orig sr.matchEnd)
                    (parseHTML c))) with isModified := true })
        ∧ (replaceSingle b sr rep).2.isModified = true) := by
  have hview : ∀ h, contentView b₁ h = contentView b h := by
    intro h
    have hpres := getContent_view_preserved b sr.itemHref h
    rw [hc] at hpres
    exact hpres
  have hmod : b₁.isModified = b.isModified := by
    have hpres := getContent_snd_isModified b sr.itemHref
    rw [hc] at hpres
    exact hpres
  refine ⟨?_, ?_, ?_⟩
  · intro hlen
    have hnone : (findStrings (parseHTML c)).get? sr.nodeIndex = none :=
      List.get?_eq_none.mpr hlen
    refine ⟨?_, hmod, hview⟩
    simp only [replaceSingle, hc, hnone]
  · intro orig horig hne
    refine ⟨?_, hmod, hview⟩
    simp only [replaceSingle, hc, horig]
    rw [if_pos hne]
  · intro orig horig heq
    have hres : replaceSingle b sr rep =
        (1, { updateContent b₁ sr.itemHref
                (prettify (replaceNthText sr.nodeIndex
                  (strTakeTo orig sr.matchStart ++ rep ++ strFrom orig sr.matchEnd)
                  (parseHTML c))) with isModified := true }) := by
      simp only [replaceSingle, hc, horig]
      rw [if_neg (fun hcon => hcon heq)]
    exact ⟨hres, by rw [hres]⟩

/-- Witness for C5: applying a genuine search result of the fixture book
replaces it and marks the book modified. -/
theorem C5_replace_single_guard_witness :
    (replaceSingle bkEx
      ⟨"ch1.xhtml", "ch1.xhtml", 0, 10, 14, "test",
        "This is a test to test replacement."⟩ "trial").1 = 1
    ∧ (replaceSingle bkEx
      ⟨"ch1.xhtml", "ch1.xhtml", 0, 10, 14, "test",
        "This is a test to test replacement."⟩ "trial").2.isModified = true := by
  have h := (C5_replace_single_guard bkEx
    ⟨"ch1.xhtml", "ch1.xhtml", 0, 10, 14, "test",
      "This is a test to test replacement."⟩ "trial"
    "<html><body><p>This is a test to test replacement.</p></body></html>"
    { bkEx with cache :=
        [("ch1.xhtml",
          "<html><body><p>This is a test to test replacement.</p></body></html>")] }
    (by decide)).2.2
    "This is a test to test replacement." (by decide) (by decide)
  exact ⟨by rw [h.1], h.2⟩

end Epsilon
